import Mathlib

/-!
Verification of the badge-certification compiler
(`tools/generate_badge_certifications.py`).

The Python script reads a YAML configuration holding a list of
certification records and a map of category metadata, validates each
record, enriches surviving records with derived fields, groups them by
category, sorts categories by `sort_order` and records by issue date
(descending, `"1970-01-01"` substituted for a missing date), and writes
a JSON document.  This file is a shallow embedding of that script:
optional YAML fields become `Option String`, Python dictionaries become
insertion-ordered association lists, `datetime.now()` becomes an
explicit `now` argument, the badge directory becomes a predicate on
filenames, and the stable Timsort used by the Python `sorted`/`list.sort`
becomes `List.mergeSort` (both are stable sorts, hence produce the same
list for a total preorder on keys).
-/

set_option maxRecDepth 8192

namespace BadgeCerts

/-- Truthiness of a Python value obtained by `cert.get(field)`:
`None` and the empty string are falsy, every other string is truthy. -/
def truthy : Option String → Bool
  | none => false
  | some s => !(s == "")

/-- One entry of the `certifications` list of the YAML configuration.
A field is `none` when the key is absent (or explicitly null). -/
structure Cert where
  title : Option String := none
  provider : Option String := none
  category : Option String := none
  badge_image : Option String := none
  verification_url : Option String := none
  issue_date : Option String := none
  expiry_date : Option String := none
  credential_id : Option String := none
  description : Option String := none
deriving DecidableEq, Repr, Inhabited

/-- `cert.get(field)` for the field names the script uses. -/
def certGet (c : Cert) : String → Option String
  | "title" => c.title
  | "provider" => c.provider
  | "category" => c.category
  | "badge_image" => c.badge_image
  | "verification_url" => c.verification_url
  | "issue_date" => c.issue_date
  | "expiry_date" => c.expiry_date
  | "credential_id" => c.credential_id
  | "description" => c.description
  | _ => none

/-- One value of the `categories` map of the YAML configuration. -/
structure CatMeta where
  display_name : Option String := none
  icon : Option String := none
  color : Option String := none
  description : Option String := none
  sort_order : Option Int := none
deriving DecidableEq, Repr, Inhabited

/-- First-match lookup in an insertion-ordered association list
(Python dictionary access `d[k]` / `d.get(k)`; dictionary keys are
unique, and every list we build has unique keys). -/
def lookupA {β : Type} (l : List (String × β)) (k : String) : Option β :=
  (l.find? (fun p => p.1 == k)).map (·.2)

/-- `k in d` for an association list. -/
def hasKey {β : Type} (l : List (String × β)) (k : String) : Bool :=
  (lookupA l k).isSome

/-- Update the value stored at the first occurrence of key `k`
(the Python in-place mutation `d[k] = f(d[k])`). -/
def modifyA {β : Type} : List (String × β) → String → (β → β) → List (String × β)
  | [], _, _ => []
  | (k', v) :: rest, k, f =>
    if k' == k then (k', f v) :: rest else (k', v) :: modifyA rest k f

/-- Split a character list at every dash (the separators of the
`%Y-%m-%d` format). -/
def splitDash : List Char → List (List Char)
  | [] => [[]]
  | c :: rest =>
    if c == Char.ofNat 45 then [] :: splitDash rest
    else match splitDash rest with
      | g :: gs => (c :: g) :: gs
      | [] => [[c]]

/-- `cs` is non-empty and consists only of ASCII digits
(what the `\d`-groups of the CPython `_strptime` regex accept). -/
def isDigits (cs : List Char) : Bool := !cs.isEmpty && cs.all Char.isDigit

/-- Numeric value of a digit group. -/
def digitsToNat (cs : List Char) : Nat := cs.foldl (fun n c => n * 10 + (c.toNat - 48)) 0

/-- Gregorian leap-year rule used by `datetime`. -/
def isLeapYear (y : Nat) : Bool := y % 4 == 0 && (y % 100 != 0 || y % 400 == 0)

/-- Number of days of month `m` in year `y`. -/
def daysInMonth (y m : Nat) : Nat :=
  if m == 2 then (if isLeapYear y then 29 else 28)
  else if m == 4 || m == 6 || m == 9 || m == 11 then 30
  else 31

/-- Model of `datetime.strptime(s, "%Y-%m-%d")` succeeding:
exactly three dash-separated digit groups, the year group exactly four
digits with year at least 1, the month and day groups one or two digits,
month 1..12 and day valid for the month. -/
def isValidDate (s : String) : Bool :=
  match splitDash s.data with
  | [ys, ms, ds] =>
    isDigits ys && ys.length == 4 && isDigits ms && decide (ms.length ≤ 2) &&
    isDigits ds && decide (ds.length ≤ 2) &&
    (let y := digitsToNat ys
     let m := digitsToNat ms
     let d := digitsToNat ds
     decide (1 ≤ y) && decide (1 ≤ m) && decide (m ≤ 12) && decide (1 ≤ d) &&
     decide (d ≤ daysInMonth y m))
  | _ => false

/-- Substring occurrence over character lists. -/
def containsSeq : List Char → List Char → Bool
  | [], pat => pat.isEmpty
  | s@(_ :: rest), pat => pat.isPrefixOf s || containsSeq rest pat

/-- the Python substring test `pat in s`. -/
def strContains (s pat : String) : Bool := containsSeq s.data pat.data

/-- A validation error produced by `validate_certification`
(one constructor per distinct `errors.append` call site). -/
inductive VErr where
  | missingField (field : String)
  | invalidCategory (category : String)
  | invalidDate (field : String)
deriving DecidableEq, Repr

/-- A validation warning produced by `validate_certification`
(one constructor per distinct `warnings.append` call site). -/
inductive VWarn where
  | badgeImageNotFound (image : String)
  | urlNotConfigured (title : Option String)
deriving DecidableEq, Repr

/-- The `required_fields` list of `validate_certification`. -/
def required_fields : List String := ["title", "provider", "category", "badge_image"]

/-- `validate_certification(cert, badges_dir, category_metadata)`.
The badge directory is abstracted to the predicate `badgeExists`
(`(badges_dir / badge_image).exists()`).  Returns the `(errors,
warnings)` pair; when a required field is missing the function returns
early with only the missing-field errors. -/
def validate_certification (cert : Cert) (badgeExists : String → Bool)
    (category_metadata : List (String × CatMeta)) : List VErr × List VWarn :=
  let errors0 := (required_fields.filter (fun f => !truthy (certGet cert f))).map VErr.missingField
  if errors0.isEmpty then
    let category := cert.category.getD ("")
    let catErr := if (lookupA category_metadata category).isNone then
        [VErr.invalidCategory category] else []
    let badge_image := cert.badge_image.getD ("")
    let imgWarn := if badgeExists badge_image then [] else [VWarn.badgeImageNotFound badge_image]
    let dateErr := (["issue_date", "expiry_date"].filter
        (fun f => truthy (certGet cert f) && !isValidDate ((certGet cert f).getD ("")))).map
        VErr.invalidDate
    let urlWarn := if !truthy cert.verification_url ||
        strContains (cert.verification_url.getD ("")) "YOUR-" then
        [VWarn.urlNotConfigured cert.title] else []
    (catErr ++ dateErr, imgWarn ++ urlWarn)
  else (errors0, [])

/-- One row of the `provider_colors` table of `generate_fallback_svg`. -/
structure ProviderStyle where
  bg : String
  text : String
  short : String
deriving DecidableEq, Repr

/-- The `provider_colors` table. -/
def provider_colors : List (String × ProviderStyle) :=
  [("Amazon Web Services", ⟨"#232f3e", "#ff9900", "AWS"⟩),
   ("Google Cloud", ⟨"#4285f4", "white", "GCP"⟩),
   ("Coursera", ⟨"#0056d2", "white", "Coursera"⟩),
   ("Linux Foundation", ⟨"#003366", "#ffffff", "LF"⟩),
   ("HashiCorp", ⟨"#7B42BC", "white", "HC"⟩)]

/-- A single-quote character (the SVG data URI quotes attribute values
with it). -/
def sq : String := String.singleton (Char.ofNat 39)

/-- `generate_fallback_svg(provider, title)`: the inline SVG data URI
built from the provider style (the `title` parameter is unused by the
script as well). -/
def generate_fallback_svg (provider : String) (title : String) : String :=
  let config := (lookupA provider_colors provider).getD ⟨"#4A90E2", "white", "CERT"⟩
  let _ := title
  "data:image/svg+xml,%3Csvg xmlns=" ++ sq ++ "http://www.w3.org/2000/svg" ++ sq ++
    " width=" ++ sq ++ "140" ++ sq ++ " height=" ++ sq ++ "140" ++ sq ++
    "%3E%3Crect fill=" ++ sq ++ config.bg ++ sq ++
    " width=" ++ sq ++ "140" ++ sq ++ " height=" ++ sq ++ "140" ++ sq ++
    " rx=" ++ sq ++ "10" ++ sq ++ "/%3E%3Ctext x=" ++ sq ++ "70" ++ sq ++
    " y=" ++ sq ++ "75" ++ sq ++ " font-family=" ++ sq ++ "Arial" ++ sq ++
    " font-size=" ++ sq ++ "16" ++ sq ++ " fill=" ++ sq ++ config.text ++ sq ++
    " text-anchor=" ++ sq ++ "middle" ++ sq ++ "%3E" ++ config.short ++
    "%3C/text%3E%3C/svg%3E"

/-- An enriched entry of the output document (`cert_entry`).  The four
trailing fields are stored in the JSON object only when the input field
is truthy; `verification_url` is `some` whenever the key is present in
the object — the script always stores it, defaulting to `""`. -/
structure CertEntry where
  title : String
  provider : String
  badge_image : String
  badge_path : String
  verification_url : Option String
  fallback_svg : String
  category : String
  issue_date : Option String := none
  expiry_date : Option String := none
  credential_id : Option String := none
  description : Option String := none
deriving DecidableEq, Repr

/-- Construction of `cert_entry` for a record that passed validation. -/
def build_cert_entry (cert : Cert) : CertEntry :=
  { title := cert.title.getD ("")
    provider := cert.provider.getD ("")
    badge_image := cert.badge_image.getD ("")
    badge_path := "assets/badges/" ++ cert.badge_image.getD ("")
    verification_url := some (cert.verification_url.getD (""))
    fallback_svg := generate_fallback_svg (cert.provider.getD ("")) (cert.title.getD (""))
    category := cert.category.getD ("")
    issue_date := if truthy cert.issue_date then cert.issue_date else none
    expiry_date := if truthy cert.expiry_date then cert.expiry_date else none
    credential_id := if truthy cert.credential_id then cert.credential_id else none
    description := if truthy cert.description then cert.description else none }

/-- ASCII model of the Python `str.title()` (used for the default
`display_name`): the first cased character of each run of letters is
upper-cased, the rest lower-cased. -/
def pyTitleAux : List Char → Bool → List Char
  | [], _ => []
  | c :: cs, prevAlpha =>
    (if c.isAlpha then (if prevAlpha then c.toLower else c.toUpper) else c) ::
      pyTitleAux cs c.isAlpha

/-- `category.title()`. -/
def pyTitle (s : String) : String := String.mk (pyTitleAux s.data false)

/-- One category group of the output document. -/
structure CatGroup where
  display_name : String
  icon : String
  color : String
  description : String
  sort_order : Int
  count : Nat
  certifications : List CertEntry
deriving DecidableEq, Repr

/-- The fresh group installed when a category key is first seen
(`output["categories"][category]` is assigned a fresh group with the defaults the script
supplies). -/
def init_category (category_metadata : List (String × CatMeta)) (category : String) : CatGroup :=
  let cat_meta := (lookupA category_metadata category).getD {}
  { display_name := cat_meta.display_name.getD (pyTitle category)
    icon := cat_meta.icon.getD ("📄")
    color := cat_meta.color.getD ("#60A5FA")
    description := cat_meta.description.getD ("")
    sort_order := cat_meta.sort_order.getD 999
    count := 0
    certifications := [] }

/-- The mutable state of the processing loop of
`generate_badge_certifications_json`. -/
structure GenState where
  total_count : Nat
  categories : List (String × CatGroup)
  total_errors : Nat
  total_warnings : Nat
deriving DecidableEq, Repr

/-- The body of `for idx, cert in enumerate(certifications, 1)` (the
index is used only for console output). -/
def process_cert (badgeExists : String → Bool) (category_metadata : List (String × CatMeta))
    (st : GenState) (cert : Cert) : GenState :=
  let ew := validate_certification cert badgeExists category_metadata
  if !ew.1.isEmpty then
    { st with total_errors := st.total_errors + ew.1.length }
  else
    let st := { st with total_warnings := st.total_warnings + ew.2.length }
    let category := cert.category.getD ("")
    let cats0 := if hasKey st.categories category then st.categories
      else st.categories ++ [(category, init_category category_metadata category)]
    let entry := build_cert_entry cert
    let cats1 := modifyA cats0 category
      (fun g => { g with certifications := g.certifications ++ [entry], count := g.count + 1 })
    { st with categories := cats1, total_count := st.total_count + 1 }

/-- The output document.  `last_updated` is `none` when the JSON object
carries no such key (the empty-input early return omits it). -/
structure Output where
  last_updated : Option String
  total_count : Nat
  categories : List (String × CatGroup)
deriving DecidableEq, Repr

/-- The parsed YAML configuration: the two top-level keys the script
reads, each `none` when absent, plus the number of unmodeled extra
top-level keys (they only influence the truthiness test `not config`). -/
structure Config where
  certifications : Option (List Cert) := none
  categories : Option (List (String × CatMeta)) := none
  otherKeys : Nat := 0
deriving DecidableEq, Repr

/-- `not config` for a parsed configuration dictionary: falsy exactly
when the dictionary is empty. -/
def configFalsy (c : Config) : Bool :=
  c.certifications.isNone && c.categories.isNone && c.otherKeys == 0

/-- Comparison used by the category sort, whose key selects the group
field `sort_order`. -/
def catLE (a b : String × CatGroup) : Bool := decide (a.2.sort_order ≤ b.2.sort_order)

/-- Sort key of the per-category descending sort: the entry field
`issue_date`, defaulting to `"1970-01-01"` when the key is absent. -/
def entryKey (e : CertEntry) : String := e.issue_date.getD ("1970-01-01")

/-- Lexicographic comparison of character lists by code point
(the Python `str` comparison). -/
def charListLE : List Char → List Char → Bool
  | [], _ => true
  | _ :: _, [] => false
  | a :: as, b :: bs =>
    if a.toNat < b.toNat then true
    else if b.toNat < a.toNat then false
    else charListLE as bs

/-- the Python `s1 <= s2` on strings. -/
def pyStrLE (a b : String) : Bool := charListLE a.data b.data

/-- Comparison realizing that descending stable sort: the Python
`reverse=True` stable sort equals the stable sort by the reversed
(still total) preorder. -/
def entryGE (a b : CertEntry) : Bool := pyStrLE (entryKey b) (entryKey a)

/-- `generate_badge_certifications_json(config, badges_dir,
project_root)`.  `now` stands for `datetime.now().isoformat()`.  Returns
the output document together with `total_errors`. -/
def generate_badge_certifications_json (config : Config) (badgeExists : String → Bool)
    (now : String) : Output × Nat :=
  let certifications := config.certifications.getD []
  let category_metadata := config.categories.getD []
  if certifications.isEmpty then
    ({ last_updated := none, total_count := 0, categories := [] }, 0)
  else
    let st := certifications.foldl (process_cert badgeExists category_metadata) ⟨0, [], 0, 0⟩
    let sorted_categories := st.categories.mergeSort catLE
    let final_categories := sorted_categories.map
      (fun p => (p.1, { p.2 with certifications := p.2.certifications.mergeSort entryGE }))
    ({ last_updated := some now, total_count := st.total_count,
       categories := final_categories }, st.total_errors)

/-- `main()`, abstracted over the result of `load_yaml_config`
(`none` both when the file is missing/unparseable and when the YAML
document is empty — `safe_load` returns `None` in all those cases,
and `main` treats every falsy `config` alike).  The second component
is the document written to the destination file, `none` when the file
is never opened. -/
def main_run (config : Option Config) (badgeExists : String → Bool) (now : String) :
    Nat × Option Output :=
  match config with
  | none => (1, none)
  | some cfg =>
    if configFalsy cfg then (1, none)
    else
      let r := generate_badge_certifications_json cfg badgeExists now
      if r.2 > 0 then (1, none)
      else (0, some r.1)

/-! ### Characterization of the processing loop

The loop of `generate_badge_certifications_json` is a left fold of
`process_cert`.  We characterize the resulting state in closed form:
the surviving records, the per-category record lists (in input order),
the first-occurrence key order, and the error/warning tallies. -/

/-- Errors of a record (`validate_certification(...)[0]`). -/
def certErrors (bx : String → Bool) (cm : List (String × CatMeta)) (c : Cert) : List VErr :=
  (validate_certification c bx cm).1

/-- Warnings of a record (`validate_certification(...)[1]`). -/
def certWarns (bx : String → Bool) (cm : List (String × CatMeta)) (c : Cert) : List VWarn :=
  (validate_certification c bx cm).2

/-- A record passes validation (no errors; warnings allowed). -/
def isValidCert (bx : String → Bool) (cm : List (String × CatMeta)) (c : Cert) : Bool :=
  (certErrors bx cm c).isEmpty

/-- The records that pass validation, in input order. -/
def survivors (bx : String → Bool) (cm : List (String × CatMeta)) (certs : List Cert) :
    List Cert :=
  certs.filter (isValidCert bx cm)

/-- The category key of a record (the required `category` field). -/
def catKey (c : Cert) : String := c.category.getD ("")

/-- The records that pass validation and belong to category `k`,
in input order. -/
def survivorsIn (bx : String → Bool) (cm : List (String × CatMeta)) (certs : List Cert)
    (k : String) : List Cert :=
  certs.filter (fun c => isValidCert bx cm c && (catKey c == k))

/-- Append a key if it is not already present (how a Python dict
extends its key order). -/
def insertKey (ks : List String) (k : String) : List String :=
  if k ∈ ks then ks else ks ++ [k]

/-- The category keys of the output, in order of the first
surviving record of each category. -/
def keysOf (bx : String → Bool) (cm : List (String × CatMeta)) (certs : List Cert) :
    List String :=
  ((survivors bx cm certs).map catKey).foldl insertKey []

/-- Total number of error messages over all records. -/
def errSum (bx : String → Bool) (cm : List (String × CatMeta)) (certs : List Cert) : Nat :=
  (certs.map (fun c => (certErrors bx cm c).length)).sum

/-- Total number of warning messages over the surviving records. -/
def warnSum (bx : String → Bool) (cm : List (String × CatMeta)) (certs : List Cert) : Nat :=
  (certs.map (fun c => if isValidCert bx cm c then (certWarns bx cm c).length else 0)).sum

/-- The closed form of the group stored for key `k`. -/
def groupFor (bx : String → Bool) (cm : List (String × CatMeta)) (certs : List Cert)
    (k : String) : CatGroup :=
  { init_category cm k with
    count := (survivorsIn bx cm certs k).length
    certifications := (survivorsIn bx cm certs k).map build_cert_entry }

/-- The closed form of the loop state after processing `certs`. -/
def stateFor (bx : String → Bool) (cm : List (String × CatMeta)) (certs : List Cert) :
    GenState :=
  { total_count := (survivors bx cm certs).length
    categories := (keysOf bx cm certs).map (fun k => (k, groupFor bx cm certs k))
    total_errors := errSum bx cm certs
    total_warnings := warnSum bx cm certs }

theorem survivors_append (bx : String → Bool) (cm : List (String × CatMeta))
    (l : List Cert) (c : Cert) :
    survivors bx cm (l ++ [c]) =
      survivors bx cm l ++ if isValidCert bx cm c then [c] else [] := by
  rcases h : isValidCert bx cm c <;> simp [survivors, List.filter_append, h]

theorem survivorsIn_append (bx : String → Bool) (cm : List (String × CatMeta))
    (l : List Cert) (c : Cert) (k : String) :
    survivorsIn bx cm (l ++ [c]) k =
      survivorsIn bx cm l k ++ if isValidCert bx cm c && (catKey c == k) then [c] else [] := by
  rcases h : isValidCert bx cm c && (catKey c == k) <;>
    simp_all [survivorsIn, List.filter_append, h]

theorem keysOf_append (bx : String → Bool) (cm : List (String × CatMeta))
    (l : List Cert) (c : Cert) :
    keysOf bx cm (l ++ [c]) =
      if isValidCert bx cm c then insertKey (keysOf bx cm l) (catKey c)
      else keysOf bx cm l := by
  rcases h : isValidCert bx cm c <;>
    simp [keysOf, survivors_append, h, List.map_append, List.foldl_append]

theorem mem_foldl_insertKey (l : List String) (acc : List String) (x : String) :
    x ∈ l.foldl insertKey acc ↔ x ∈ acc ∨ x ∈ l := by
  induction l generalizing acc with
  | nil => simp
  | cons a rest ih =>
    simp only [List.foldl_cons, ih, insertKey, List.mem_cons]
    split
    · rename_i ha
      constructor
      · rintro (h | h)
        · exact Or.inl h
        · exact Or.inr (Or.inr h)
      · rintro (h | h | h)
        · exact Or.inl h
        · exact Or.inl (h ▸ ha)
        · exact Or.inr h
    · simp only [List.mem_append, List.mem_singleton]
      tauto

theorem nodup_foldl_insertKey (l : List String) (acc : List String) (h : acc.Nodup) :
    (l.foldl insertKey acc).Nodup := by
  induction l generalizing acc with
  | nil => exact h
  | cons a rest ih =>
    simp only [List.foldl_cons, insertKey]
    split
    · exact ih acc h
    · rename_i ha
      refine ih _ ?_
      simp [List.nodup_append, h, List.disjoint_singleton, ha]

theorem mem_keysOf (bx : String → Bool) (cm : List (String × CatMeta)) (certs : List Cert)
    (k : String) :
    k ∈ keysOf bx cm certs ↔ k ∈ (survivors bx cm certs).map catKey := by
  simp [keysOf, mem_foldl_insertKey]

theorem keysOf_nodup (bx : String → Bool) (cm : List (String × CatMeta)) (certs : List Cert) :
    (keysOf bx cm certs).Nodup :=
  nodup_foldl_insertKey _ _ List.nodup_nil

theorem lookupA_map {β : Type} (ks : List String) (f : String → β) (k : String) :
    lookupA (ks.map (fun x => (x, f x))) k = if k ∈ ks then some (f k) else none := by
  induction ks with
  | nil => rfl
  | cons a rest ih =>
    by_cases he : a = k
    · subst he
      simp [lookupA, List.find?_cons_of_pos]
    · have hstep : lookupA ((a :: rest).map (fun x => (x, f x))) k
          = lookupA (rest.map (fun x => (x, f x))) k := by
        simp only [List.map_cons, lookupA]
        rw [List.find?_cons_of_neg]
        simpa using he
      rw [hstep, ih]
      simp [he, Ne.symm he, List.mem_cons]

theorem hasKey_map {β : Type} (ks : List String) (f : String → β) (k : String) :
    hasKey (ks.map (fun x => (x, f x))) k = decide (k ∈ ks) := by
  rcases h : decide (k ∈ ks) with _ | _
  · simp [hasKey, lookupA_map, of_decide_eq_false h]
  · simp [hasKey, lookupA_map, of_decide_eq_true h]

theorem modifyA_map {β : Type} (ks : List String) (f : String → β) (k : String) (g : β → β)
    (h : ks.Nodup) :
    modifyA (ks.map (fun x => (x, f x))) k g =
      ks.map (fun x => (x, if x = k then g (f x) else f x)) := by
  induction ks with
  | nil => simp [modifyA]
  | cons a rest ih =>
    rcases List.nodup_cons.mp h with ⟨hna, hr⟩
    by_cases he : a = k
    · subst he
      simp only [List.map_cons, modifyA, beq_self_eq_true, if_true, List.cons.injEq]
      refine ⟨by simp, ?_⟩
      refine (List.map_congr_left ?_).symm
      intro x hx
      have hxa : x ≠ a := fun hh => hna (hh ▸ hx)
      simp [hxa]
    · simp only [List.map_cons, modifyA]
      rw [if_neg (by simp [he])]
      simp only [List.cons.injEq]
      exact ⟨by simp [he], ih hr⟩

theorem survivorsIn_eq_filter (bx : String → Bool) (cm : List (String × CatMeta))
    (certs : List Cert) (k : String) :
    survivorsIn bx cm certs k = (survivors bx cm certs).filter (fun c => catKey c == k) := by
  simp only [survivorsIn, survivors, List.filter_filter]
  exact List.filter_congr (fun c _ => by rw [Bool.and_comm])

theorem survivorsIn_eq_nil (bx : String → Bool) (cm : List (String × CatMeta))
    (certs : List Cert) (k : String) (h : k ∉ keysOf bx cm certs) :
    survivorsIn bx cm certs k = [] := by
  rw [survivorsIn_eq_filter]
  rw [List.filter_eq_nil_iff]
  intro a ha hk
  exact h ((mem_keysOf bx cm certs k).mpr (List.mem_map.mpr ⟨a, ha, by simpa using hk⟩))

theorem groupFor_of_not_mem (bx : String → Bool) (cm : List (String × CatMeta))
    (certs : List Cert) (k : String) (h : k ∉ keysOf bx cm certs) :
    groupFor bx cm certs k = init_category cm k := by
  simp [groupFor, survivorsIn_eq_nil bx cm certs k h, init_category]

/-- The loop of `generate_badge_certifications_json` computes
`stateFor`: total count = number of surviving records, categories in
first-surviving-record order with per-category record lists in input
order, and the error/warning tallies. -/
theorem foldl_process_eq (bx : String → Bool) (cm : List (String × CatMeta))
    (certs : List Cert) :
    certs.foldl (process_cert bx cm) ⟨0, [], 0, 0⟩ = stateFor bx cm certs := by
  induction certs using List.reverseRecOn with
  | nil => rfl
  | append_singleton l c ih =>
    rw [List.foldl_append, List.foldl_cons, List.foldl_nil, ih]
    rcases hv : isValidCert bx cm c with _ | _
    · -- the record fails validation: only the error tally changes
      have hcond : (!(validate_certification c bx cm).1.isEmpty) = true := by
        simpa [isValidCert, certErrors] using hv
      simp only [process_cert, hcond, if_true]
      simp only [stateFor, GenState.mk.injEq]
      refine ⟨?_, ?_, ?_, ?_⟩
      · simp [survivors_append, hv]
      · rw [keysOf_append]
        rw [if_neg (by simp [hv])]
        refine List.map_congr_left ?_
        intro k _
        simp [groupFor, survivorsIn_append, hv]
      · simp [errSum, certErrors, List.map_append]
      · simp [warnSum, List.map_append, hv]
    · -- the record passes validation
      have hcond : (!(validate_certification c bx cm).1.isEmpty) = false := by
        simpa [isValidCert, certErrors] using hv
      have herrnil : (certErrors bx cm c).length = 0 := by
        simpa [certErrors, List.isEmpty_iff_length_eq_zero, isValidCert] using hv
      simp only [process_cert, hcond, Bool.false_eq_true, if_false]
      simp only [stateFor, hasKey_map]
      by_cases hk : catKey c ∈ keysOf bx cm l
      · -- category already present: modify its group in place
        rw [if_pos (by simpa [catKey] using hk)]
        rw [show (c.category.getD ("")) = catKey c from rfl]
        rw [modifyA_map _ _ _ _ (keysOf_nodup bx cm l)]
        simp only [GenState.mk.injEq]
        refine ⟨?_, ?_, ?_, ?_⟩
        · simp [survivors_append, hv]
        · rw [keysOf_append, if_pos hv, insertKey, if_pos hk]
          refine List.map_congr_left ?_
          intro x _
          by_cases hx : x = catKey c
          · subst hx
            simp [groupFor, survivorsIn_append, hv]
          · simp [hx, groupFor, survivorsIn_append, hv, Ne.symm hx,
              show (catKey c == x) = false by simpa using Ne.symm hx]
        · simp [errSum, List.map_append, herrnil]
        · simp [warnSum, certWarns, List.map_append, hv]
      · -- new category: append a fresh group, then modify it
        rw [if_neg (by simpa [catKey] using hk)]
        rw [show (c.category.getD ("")) = catKey c from rfl]
        have happ : (keysOf bx cm l).map (fun k => (k, groupFor bx cm l k)) ++
              [(catKey c, init_category cm (catKey c))]
            = ((keysOf bx cm l) ++ [catKey c]).map (fun k => (k, groupFor bx cm l k)) := by
          rw [List.map_append, List.map_singleton, groupFor_of_not_mem bx cm l _ hk]
        rw [happ]
        have hnodup : ((keysOf bx cm l) ++ [catKey c]).Nodup := by
          simp [List.nodup_append, keysOf_nodup bx cm l, hk]
        rw [modifyA_map _ _ _ _ hnodup]
        simp only [GenState.mk.injEq]
        refine ⟨?_, ?_, ?_, ?_⟩
        · simp [survivors_append, hv]
        · rw [keysOf_append, if_pos hv, insertKey, if_neg hk]
          refine List.map_congr_left ?_
          intro x _
          by_cases hx : x = catKey c
          · subst hx
            simp [groupFor, survivorsIn_append, hv]
          · simp [hx, groupFor, survivorsIn_append, hv, Ne.symm hx,
              show (catKey c == x) = false by simpa using Ne.symm hx]
        · simp [errSum, List.map_append, herrnil]
        · simp [warnSum, certWarns, List.map_append, hv]

/-- Post-processing applied to each category after the category sort
(the in-place descending sort of each per-category entry list). -/
def sortGroupEntries (p : String × CatGroup) : String × CatGroup :=
  (p.1, { p.2 with certifications := p.2.certifications.mergeSort entryGE })

/-- Closed form of `generate_badge_certifications_json`. -/
theorem generate_eq (cfg : Config) (bx : String → Bool) (now : String) :
    generate_badge_certifications_json cfg bx now =
      (let certs := cfg.certifications.getD []
       let cm := cfg.categories.getD []
       if certs.isEmpty then
         ({ last_updated := none, total_count := 0, categories := [] }, 0)
       else
         ({ last_updated := some now
            total_count := (survivors bx cm certs).length
            categories := (((keysOf bx cm certs).map
                (fun k => (k, groupFor bx cm certs k))).mergeSort catLE).map sortGroupEntries },
          errSum bx cm certs)) := by
  simp only [generate_badge_certifications_json, foldl_process_eq, stateFor, sortGroupEntries]
  rfl

theorem mergeSort_pair {α : Type} (le : α → α → Bool) (a b : α) :
    List.mergeSort [a, b] le = if le a b then [a, b] else [b, a] := by
  rw [List.mergeSort]
  simp only [List.splitInTwo, List.splitAt, List.splitAt.go, List.length_cons,
    List.length_nil, List.mergeSort_singleton]
  rcases h : le a b <;> simp [List.merge, h]

theorem catLE_trans : ∀ a b c : String × CatGroup, catLE a b → catLE b c → catLE a c := by
  intro a b c hab hbc
  simp only [catLE, decide_eq_true_eq] at *
  exact le_trans hab hbc

theorem catLE_total : ∀ a b : String × CatGroup, catLE a b || catLE b a := by
  intro a b
  simpa [catLE, Bool.or_eq_true, decide_eq_true_eq] using le_total a.2.sort_order b.2.sort_order

theorem charListLE_total : ∀ as bs : List Char, charListLE as bs || charListLE bs as := by
  intro as
  induction as with
  | nil => intro bs; simp [charListLE]
  | cons a at' ih =>
    intro bs
    cases bs with
    | nil => simp [charListLE]
    | cons b bt =>
      simp only [charListLE]
      rcases Nat.lt_trichotomy a.toNat b.toNat with h | h | h
      · simp [h]
      · simp only [h, Nat.lt_irrefl, if_false]
        simpa using ih bt
      · simp [h, Nat.lt_asymm h]

theorem charListLE_trans :
    ∀ as bs cs : List Char, charListLE as bs → charListLE bs cs → charListLE as cs := by
  intro as
  induction as with
  | nil => intro bs cs _ _; simp [charListLE]
  | cons a at' ih =>
    intro bs cs hab hbc
    cases bs with
    | nil => simp [charListLE] at hab
    | cons b bt =>
      cases cs with
      | nil => simp [charListLE] at hbc
      | cons c ct =>
        simp only [charListLE] at hab hbc ⊢
        split_ifs at hab hbc ⊢ <;>
          first
            | rfl
            | exact ih bt ct hab hbc
            | (exfalso; omega)

theorem entryGE_trans : ∀ a b c : CertEntry, entryGE a b → entryGE b c → entryGE a c := by
  intro a b c hab hbc
  exact charListLE_trans _ _ _ hbc hab

theorem entryGE_total : ∀ a b : CertEntry, entryGE a b || entryGE b a := by
  intro a b
  exact charListLE_total _ _

theorem sum_map_add {α : Type} (l : List α) (f g : α → Nat) :
    (l.map (fun x => f x + g x)).sum = (l.map f).sum + (l.map g).sum := by
  induction l with
  | nil => rfl
  | cons a t ih => simp only [List.map_cons, List.sum_cons, ih]; omega

theorem sum_map_ite_eq (ks : List String) (x : String) (h : ks.Nodup) (hx : x ∈ ks) :
    (ks.map (fun k => if x == k then (1 : Nat) else 0)).sum = 1 := by
  induction ks with
  | nil => cases hx
  | cons a rest ih =>
    rcases List.nodup_cons.mp h with ⟨hna, hr⟩
    rcases List.mem_cons.mp hx with he | hm
    · subst he
      simp only [List.map_cons, List.sum_cons, beq_self_eq_true, if_true]
      have : (rest.map (fun k => if x == k then (1 : Nat) else 0)).sum = 0 := by
        refine List.sum_eq_zero ?_
        intro n hn
        rcases List.mem_map.mp hn with ⟨k, hk, hkn⟩
        have : x ≠ k := fun he => hna (he ▸ hk)
        simpa [show (x == k) = false by simpa using this] using hkn.symm
      omega
    · have hax : a ≠ x := fun he => hna (he ▸ hm)
      simpa [Ne.symm hax] using ih hr hm

theorem sum_counts (ks : List String) (s : List Cert) (h : ks.Nodup)
    (hcov : ∀ c ∈ s, catKey c ∈ ks) :
    (ks.map (fun k => (s.filter (fun c => catKey c == k)).length)).sum = s.length := by
  induction s with
  | nil => simp
  | cons c t ih =>
    have hc : catKey c ∈ ks := hcov c (by simp)
    have hcov' : ∀ x ∈ t, catKey x ∈ ks := fun x hx => hcov x (by simp [hx])
    have hsplit : ∀ k, ((c :: t).filter (fun c' => catKey c' == k)).length
        = (if catKey c == k then 1 else 0) + (t.filter (fun c' => catKey c' == k)).length := by
      intro k
      rcases hk : (catKey c == k)
      · simp [List.filter_cons, hk]
      · simp [List.filter_cons, hk]
        omega
    simp only [hsplit]
    rw [sum_map_add, sum_map_ite_eq ks (catKey c) h hc, ih hcov']
    simp [Nat.add_comm]

/-- C1: the output field `total_count` equals the number of records that
pass validation, and equals the sum of the per-category `count`
fields. -/
theorem C1_total_count_partition (cfg : Config) (bx : String → Bool) (now : String) :
    (generate_badge_certifications_json cfg bx now).1.total_count
      = (survivors bx (cfg.categories.getD []) (cfg.certifications.getD [])).length
    ∧ (generate_badge_certifications_json cfg bx now).1.total_count
      = (((generate_badge_certifications_json cfg bx now).1.categories).map
          (fun p => p.2.count)).sum := by
  rw [generate_eq]
  by_cases h : (cfg.certifications.getD []).isEmpty
  · rw [List.isEmpty_iff] at h
    simp [h, survivors]
  · simp only [h, if_false, Bool.false_eq_true]
    refine ⟨by simp, ?_⟩
    set certs := cfg.certifications.getD []
    set cm := cfg.categories.getD []
    have h1 : ∀ L : List (String × CatGroup),
        (L.map sortGroupEntries).map (fun p => p.2.count) = L.map (fun p => p.2.count) := by
      intro L
      rw [List.map_map]
      exact List.map_congr_left (fun p _ => rfl)
    rw [h1]
    have h2 : ((((keysOf bx cm certs).map (fun k => (k, groupFor bx cm certs k))).mergeSort
          catLE).map (fun p => p.2.count)).sum
        = (((keysOf bx cm certs).map (fun k => (k, groupFor bx cm certs k))).map
            (fun p => p.2.count)).sum :=
      List.Perm.sum_eq (List.Perm.map _ (List.mergeSort_perm _ _))
    rw [h2, List.map_map]
    have h3 : ((keysOf bx cm certs).map ((fun p : String × CatGroup => p.2.count) ∘
          (fun k => (k, groupFor bx cm certs k))))
        = (keysOf bx cm certs).map
            (fun k => ((survivors bx cm certs).filter (fun c => catKey c == k)).length) := by
      refine List.map_congr_left ?_
      intro k _
      simp [groupFor, Function.comp, survivorsIn_eq_filter]
    rw [h3]
    rw [sum_counts _ _ (keysOf_nodup bx cm certs)]
    intro c hc
    exact (mem_keysOf bx cm certs _).mpr (List.mem_map.mpr ⟨c, hc, rfl⟩)

/-- C5: a run that exits with a non-zero status never opens the
destination file: the document is written only on the success path,
after all validation has completed in memory. -/
theorem C5_no_write_on_failure (oc : Option Config) (bx : String → Bool) (now : String)
    (h : (main_run oc bx now).1 ≠ 0) : (main_run oc bx now).2 = none := by
  rcases oc with _ | cfg
  · rfl
  · simp only [main_run] at h ⊢
    rcases hf : configFalsy cfg with _ | _
    · simp only [hf, Bool.false_eq_true, if_false] at h ⊢
      rcases he : (generate_badge_certifications_json cfg bx now).2 with _ | n
      · simp [he] at h
      · simp [he]
    · simp [hf]

/-- Witness for C5 at a concrete failing input (missing/unparseable
configuration). -/
theorem C5_no_write_on_failure_witness :
    (main_run none (fun _ => true) "T").1 ≠ 0 ∧ (main_run none (fun _ => true) "T").2 = none :=
  ⟨by decide, C5_no_write_on_failure none (fun _ => true) "T" (by decide)⟩

/-- C9: two runs on the same configuration and badge directory differ
at most in the generation timestamp: categories (hence orderings and
per-category counts), total count and the error tally all agree. -/
theorem C9_deterministic_modulo_timestamp (cfg : Config) (bx : String → Bool) (t1 t2 : String) :
    (generate_badge_certifications_json cfg bx t1).1.categories
      = (generate_badge_certifications_json cfg bx t2).1.categories
    ∧ (generate_badge_certifications_json cfg bx t1).1.total_count
      = (generate_badge_certifications_json cfg bx t2).1.total_count
    ∧ (generate_badge_certifications_json cfg bx t1).2
      = (generate_badge_certifications_json cfg bx t2).2 := by
  rw [generate_eq cfg bx t1, generate_eq cfg bx t2]
  by_cases h : (cfg.certifications.getD []).isEmpty <;> simp [h]

/-- C6: categories in the output appear in non-decreasing
`sort_order`, and the `sort_order` of each category is the metadata value,
defaulting to 999 when the metadata omits it. -/
theorem C6_categories_sorted (cfg : Config) (bx : String → Bool) (now : String) :
    ((generate_badge_certifications_json cfg bx now).1.categories).Pairwise
      (fun a b => a.2.sort_order ≤ b.2.sort_order)
    ∧ ((generate_badge_certifications_json cfg bx now).1.categories).Forall
      (fun p => p.2.sort_order =
        (match lookupA (cfg.categories.getD []) p.1 with
         | some m => m.sort_order.getD 999
         | none => 999)) := by
  rw [generate_eq]
  by_cases h : (cfg.certifications.getD []).isEmpty
  · simp [h]
  · simp only [h, Bool.false_eq_true, if_false]
    constructor
    · have hs := List.sorted_mergeSort catLE_trans catLE_total
        ((keysOf bx (cfg.categories.getD []) (cfg.certifications.getD [])).map
          (fun k => (k, groupFor bx (cfg.categories.getD []) (cfg.certifications.getD []) k)))
      refine List.Pairwise.map _ ?_ hs
      intro a b hab
      simpa [catLE, sortGroupEntries] using hab
    · rw [List.forall_iff_forall_mem]
      intro p hp
      rcases List.mem_map.mp hp with ⟨q, hq, rfl⟩
      rcases List.mem_map.mp (List.mem_mergeSort.mp hq) with ⟨k, _, rfl⟩
      simp only [sortGroupEntries, groupFor, init_category]
      cases hl : lookupA (cfg.categories.getD []) k <;> simp [hl]

/-- C2 (amended): within each category the records are in descending
lexicographic order of the sort key — the issue date with
`"1970-01-01"` substituted when missing.  Consequently a record with
no issue date appears after every record whose issue date is
lexicographically greater than `"1970-01-01"`, but not necessarily
after records dated `"1970-01-01"` or earlier. -/
theorem C2_entries_sorted_amended (cfg : Config) (bx : String → Bool) (now : String) :
    ((generate_badge_certifications_json cfg bx now).1.categories).Forall
      (fun p => p.2.certifications.Pairwise
          (fun a b => pyStrLE (entryKey b) (entryKey a) = true)
        ∧ p.2.certifications.Pairwise
          (fun a b => a.issue_date = none → pyStrLE (entryKey b) "1970-01-01" = true)) := by
  rw [generate_eq]
  by_cases h : (cfg.certifications.getD []).isEmpty
  · simp [h]
  · simp only [h, Bool.false_eq_true, if_false]
    rw [List.forall_iff_forall_mem]
    intro p hp
    rcases List.mem_map.mp hp with ⟨q, _, rfl⟩
    have hs := List.sorted_mergeSort entryGE_trans entryGE_total q.2.certifications
    refine ⟨hs.imp (fun hab => hab), ?_⟩
    refine hs.imp ?_
    intro a b hab hnone
    have hka : entryKey a = "1970-01-01" := by simp [entryKey, hnone]
    rw [entryGE, hka] at hab
    exact hab

/-- Category metadata used by the concrete counterexamples. -/
def cmCloud : List (String × CatMeta) := [("cloud", { sort_order := some 1 })]

/-- A record that passes validation and has no issue date. -/
def certNoDate : Cert :=
  { title := some ("A"), provider := some ("P"), category := some ("cloud"),
    badge_image := some ("a.png") }

/-- A record that passes validation with issue date 1969-12-31 —
a well-formed `YYYY-MM-DD` date earlier than the 1970-01-01
substitute key. -/
def certOld : Cert :=
  { title := some ("B"), provider := some ("P"), category := some ("cloud"),
    badge_image := some ("b.png"), issue_date := some ("1969-12-31") }

/-- Configuration holding the two records above. -/
def cfgPre1970 : Config :=
  { certifications := some [certNoDate, certOld], categories := some cmCloud }

/-- C2 (counterexample): both records pass validation, yet the record
with NO issue date is placed BEFORE the record dated 1969-12-31,
because the substitute key `"1970-01-01"` compares greater — refuting
"every record with no issue date appears after every record that has
one". -/
theorem C2_counterexample :
    isValidCert (fun _ => true) cmCloud certNoDate = true
    ∧ isValidCert (fun _ => true) cmCloud certOld = true
    ∧ ((generate_badge_certifications_json cfgPre1970 (fun _ => true) "T").1.categories.map
        (fun p => p.2.certifications.map (fun e => e.issue_date)))
      = [[none, some ("1969-12-31")]] := by
  refine ⟨by decide, by decide, ?_⟩
  rw [generate_eq]
  simp only [cfgPre1970, Option.getD_some, List.isEmpty_cons, Bool.false_eq_true, if_false]
  rw [show keysOf (fun _ => true) cmCloud [certNoDate, certOld] = ["cloud"] from by decide]
  simp only [List.map_singleton, List.mergeSort_singleton, sortGroupEntries]
  rw [show (groupFor (fun _ => true) cmCloud [certNoDate, certOld] "cloud").certifications
      = [build_cert_entry certNoDate, build_cert_entry certOld] from by decide]
  rw [mergeSort_pair]
  rw [show entryGE (build_cert_entry certNoDate) (build_cert_entry certOld) = true from by decide]
  simp only [if_true, List.map_cons, List.map_nil]
  rfl

/-- Some record of the configuration fails validation. -/
def anyFailing (cfg : Config) (bx : String → Bool) : Bool :=
  (cfg.certifications.getD []).any (fun c => !(isValidCert bx (cfg.categories.getD []) c))

theorem errSum_eq_zero_iff (bx : String → Bool) (cm : List (String × CatMeta))
    (certs : List Cert) :
    errSum bx cm certs = 0 ↔ ∀ c ∈ certs, isValidCert bx cm c := by
  simp only [errSum, List.sum_eq_zero_iff, List.mem_map, isValidCert,
    List.isEmpty_iff_length_eq_zero]
  constructor
  · intro h c hc
    exact h _ ⟨c, hc, rfl⟩
  · rintro h n ⟨c, hc, rfl⟩
    exact h c hc

/-- C3 (counterexample): the configuration `{}` is parseable and holds
no records, so no record fails validation; the claim then requires
exit code 0, but the run exits 1 — `main` treats every falsy parsed
document like a missing file. -/
theorem C3_counterexample :
    (main_run (some {}) (fun _ => true) "T").1 = 1
    ∧ anyFailing {} (fun _ => true) = false :=
  ⟨rfl, rfl⟩

/-- C3 (amended): the process exits 1 exactly when the configuration
is missing/unparseable, OR the parsed configuration is falsy (e.g. the
empty document), or at least one record fails validation; it exits 0
in every other case, including a truthy configuration with zero
records. -/
theorem C3_exit_code_amended (oc : Option Config) (bx : String → Bool) (now : String) :
    (main_run oc bx now).1 =
      (match oc with
       | none => 1
       | some cfg => if configFalsy cfg || anyFailing cfg bx then 1 else 0) := by
  rcases oc with _ | cfg
  · rfl
  · simp only [main_run]
    rcases hf : configFalsy cfg with _ | _
    · simp only [hf, Bool.false_eq_true, if_false, Bool.false_or]
      rw [generate_eq]
      by_cases h : (cfg.certifications.getD []).isEmpty
      · rw [List.isEmpty_iff] at h
        simp [h, anyFailing]
      · simp only [h, Bool.false_eq_true, if_false]
        rcases ha : anyFailing cfg bx with _ | _
        · have hz : errSum bx (cfg.categories.getD []) (cfg.certifications.getD []) = 0 := by
            rw [errSum_eq_zero_iff]
            intro c hc
            have := (List.any_eq_false).mp ha c hc
            simpa using this
          simp [hz]
        · rcases List.any_eq_true.mp ha with ⟨c, hc, hcf⟩
          have hpos : 0 < errSum bx (cfg.categories.getD []) (cfg.certifications.getD []) := by
            have hlen : 0 < (certErrors bx (cfg.categories.getD []) c).length := by
              rcases hn : certErrors bx (cfg.categories.getD []) c with _ | _
              · simp [isValidCert, hn] at hcf
              · simp
            have hmem : (certErrors bx (cfg.categories.getD []) c).length ∈
                (cfg.certifications.getD []).map
                  (fun c => (certErrors bx (cfg.categories.getD []) c).length) :=
              List.mem_map.mpr ⟨c, hc, rfl⟩
            calc 0 < (certErrors bx (cfg.categories.getD []) c).length := hlen
              _ ≤ _ := List.single_le_sum (fun _ _ => Nat.zero_le _) _ hmem
          simp [hpos, Nat.pos_iff_ne_zero.mp hpos]
    · simp [hf]

/-! ### Validation as a function of the enriched entry

The validation errors of a record are recoverable from its enriched
output entry: this shows a record with errors can never be mistaken
for (the image of) a surviving record in the output. -/

/-- The value the enriched entry stores for a required field. -/
def entryFieldVal (e : CertEntry) : String → String
  | "title" => e.title
  | "provider" => e.provider
  | "category" => e.category
  | "badge_image" => e.badge_image
  | _ => ""

/-- The date value the enriched entry stores for a date field. -/
def entryDateVal (e : CertEntry) : String → Option String
  | "issue_date" => e.issue_date
  | _ => e.expiry_date

/-- The validation errors of a record, recomputed from its enriched
entry (mirrors `validate_certification`). -/
def entryErrors (cm : List (String × CatMeta)) (e : CertEntry) : List VErr :=
  let errors0 := (required_fields.filter (fun f => entryFieldVal e f == "")).map VErr.missingField
  if errors0.isEmpty then
    let catErr := if (lookupA cm e.category).isNone then [VErr.invalidCategory e.category] else []
    let dateErr := (["issue_date", "expiry_date"].filter
        (fun f => (entryDateVal e f).isSome && !isValidDate ((entryDateVal e f).getD ("")))).map
        VErr.invalidDate
    catErr ++ dateErr
  else errors0

theorem certErrors_build (bx : String → Bool) (cm : List (String × CatMeta)) (c : Cert) :
    certErrors bx cm c = entryErrors cm (build_cert_entry c) := by
  have hfield : ∀ f ∈ required_fields,
      (!truthy (certGet c f)) = (entryFieldVal (build_cert_entry c) f == "") := by
    intro f hf
    fin_cases hf
    · cases h : c.title <;> simp [truthy, certGet, entryFieldVal, build_cert_entry, h]
    · cases h : c.provider <;> simp [truthy, certGet, entryFieldVal, build_cert_entry, h]
    · cases h : c.category <;> simp [truthy, certGet, entryFieldVal, build_cert_entry, h]
    · cases h : c.badge_image <;> simp [truthy, certGet, entryFieldVal, build_cert_entry, h]
  have hdate : ∀ f ∈ ["issue_date", "expiry_date"],
      (truthy (certGet c f) && !isValidDate ((certGet c f).getD ("")))
        = ((entryDateVal (build_cert_entry c) f).isSome
            && !isValidDate ((entryDateVal (build_cert_entry c) f).getD (""))) := by
    intro f hf
    fin_cases hf
    · cases hid : c.issue_date with
      | none => simp [certGet, entryDateVal, build_cert_entry, truthy, hid]
      | some s =>
        rcases h : truthy (some s) with _ | _ <;>
          simp [certGet, entryDateVal, build_cert_entry, hid, h]
    · cases hid : c.expiry_date with
      | none => simp [certGet, entryDateVal, build_cert_entry, truthy, hid]
      | some s =>
        rcases h : truthy (some s) with _ | _ <;>
          simp [certGet, entryDateVal, build_cert_entry, hid, h]
  simp only [certErrors, validate_certification, entryErrors, List.filter_congr hfield,
    List.filter_congr hdate]
  split <;> rfl

/-- `validate_certification` consults the badge directory only for
warnings, so the error list does not depend on it. -/
theorem certErrors_bx_indep (bx bx' : String → Bool) (cm : List (String × CatMeta)) (c : Cert) :
    certErrors bx cm c = certErrors bx' cm c := by
  simp only [certErrors, validate_certification]
  split <;> rfl

theorem isValidCert_bx_indep (bx bx' : String → Bool) (cm : List (String × CatMeta)) (c : Cert) :
    isValidCert bx cm c = isValidCert bx' cm c := by
  simp [isValidCert, certErrors_bx_indep bx bx' cm c]

/-- The output document (and the error count) does not depend on the
contents of the badge directory: badge-image warnings leave no trace
in the output. -/
theorem generate_bx_indep (cfg : Config) (bx bx' : String → Bool) (now : String) :
    generate_badge_certifications_json cfg bx now
      = generate_badge_certifications_json cfg bx' now := by
  rw [generate_eq, generate_eq]
  have hv : isValidCert bx (cfg.categories.getD [])
      = isValidCert bx' (cfg.categories.getD []) :=
    funext fun c => isValidCert_bx_indep bx bx' _ c
  have he : certErrors bx (cfg.categories.getD [])
      = certErrors bx' (cfg.categories.getD []) :=
    funext fun c => certErrors_bx_indep bx bx' _ c
  simp only [survivors, survivorsIn, keysOf, errSum, groupFor, hv, he]

/-- All entries stored anywhere in the output document. -/
def allEntries (out : Output) : List CertEntry :=
  (out.categories.map (fun p => p.2.certifications)).flatten

/-- Membership in the category list of the output, in closed form. -/
theorem mem_out_categories (cfg : Config) (bx : String → Bool) (now : String)
    (p : String × CatGroup) :
    p ∈ (generate_badge_certifications_json cfg bx now).1.categories ↔
      ∃ k ∈ keysOf bx (cfg.categories.getD []) (cfg.certifications.getD []),
        p = sortGroupEntries
          (k, groupFor bx (cfg.categories.getD []) (cfg.certifications.getD []) k) := by
  rw [generate_eq]
  by_cases h : (cfg.certifications.getD []).isEmpty
  · have h' : (cfg.certifications.getD []) = [] := List.isEmpty_iff.mp h
    simp [h, h', keysOf, survivors]
  · simp only [h, Bool.false_eq_true, if_false, List.mem_map, List.mem_mergeSort]
    constructor
    · rintro ⟨q, ⟨k, hk, rfl⟩, rfl⟩
      exact ⟨k, hk, rfl⟩
    · rintro ⟨k, hk, rfl⟩
      exact ⟨(k, groupFor bx (cfg.categories.getD []) (cfg.certifications.getD []) k),
        ⟨k, hk, rfl⟩, rfl⟩

theorem lookupA_eq_some_of_mem {β : Type} (l : List (String × β)) (k : String) (v : β)
    (hn : (l.map Prod.fst).Nodup) (hm : (k, v) ∈ l) : lookupA l k = some v := by
  induction l with
  | nil => cases hm
  | cons a rest ih =>
    rcases List.mem_cons.mp hm with he | hm'
    · subst he
      simp [lookupA, List.find?_cons_of_pos]
    · have hkfst : k ∈ rest.map Prod.fst := List.mem_map.mpr ⟨(k, v), hm', rfl⟩
      have hne : a.1 ≠ k := by
        intro hak
        exact (List.nodup_cons.mp (by simpa using hn)).1 (hak ▸ hkfst)
      have hstep : lookupA (a :: rest) k = lookupA rest k := by
        simp only [lookupA]
        rw [List.find?_cons_of_neg]
        simpa using hne
      rw [hstep]
      exact ih (List.nodup_cons.mp (by simpa using hn)).2 hm'

/-- The category keys of the output document are distinct. -/
theorem out_keys_nodup (cfg : Config) (bx : String → Bool) (now : String) :
    (((generate_badge_certifications_json cfg bx now).1.categories).map Prod.fst).Nodup := by
  rw [generate_eq]
  by_cases h : (cfg.certifications.getD []).isEmpty
  · simp [h]
  · simp only [h, Bool.false_eq_true, if_false]
    rw [List.map_map]
    have h1 : ((((keysOf bx (cfg.categories.getD []) (cfg.certifications.getD [])).map
          (fun k => (k, groupFor bx (cfg.categories.getD []) (cfg.certifications.getD []) k))).mergeSort
            catLE).map (Prod.fst ∘ sortGroupEntries)).Perm
        ((((keysOf bx (cfg.categories.getD []) (cfg.certifications.getD [])).map
          (fun k => (k, groupFor bx (cfg.categories.getD []) (cfg.certifications.getD []) k)))).map
            (Prod.fst ∘ sortGroupEntries)) :=
      (List.mergeSort_perm _ _).map _
    rw [h1.nodup_iff, List.map_map]
    have h2 : ((keysOf bx (cfg.categories.getD []) (cfg.certifications.getD [])).map
        ((Prod.fst ∘ sortGroupEntries) ∘
          (fun k => (k, groupFor bx (cfg.categories.getD []) (cfg.certifications.getD []) k))))
        = keysOf bx (cfg.categories.getD []) (cfg.certifications.getD []) := by
      rw [show ((keysOf bx (cfg.categories.getD []) (cfg.certifications.getD [])).map
          ((Prod.fst ∘ sortGroupEntries) ∘
            (fun k => (k, groupFor bx (cfg.categories.getD []) (cfg.certifications.getD []) k))))
          = (keysOf bx (cfg.categories.getD []) (cfg.certifications.getD [])).map id from
        List.map_congr_left (fun k _ => rfl)]
      exact List.map_id _
    rw [h2]
    exact keysOf_nodup bx _ _

/-- Looking up a category key present in the output finds its group. -/
theorem lookupA_out_categories (cfg : Config) (bx : String → Bool) (now : String) (k : String)
    (hk : k ∈ keysOf bx (cfg.categories.getD []) (cfg.certifications.getD [])) :
    lookupA (generate_badge_certifications_json cfg bx now).1.categories k
      = some (sortGroupEntries
          (k, groupFor bx (cfg.categories.getD []) (cfg.certifications.getD []) k)).2 := by
  apply lookupA_eq_some_of_mem
  · exact out_keys_nodup cfg bx now
  · exact (mem_out_categories cfg bx now _).mpr ⟨k, hk, rfl⟩

/-- C4: (1) the returned error count is the total number of error
messages of the failing records; (2) a record with a validation error
contributes no entry to the output document; (3) every record without
errors — warned or not — has its enriched entry stored under its
category; (4) the output document and error count are unchanged when
the badge directory changes, so warnings are console-only. -/
theorem C4_errors_dropped_warnings_kept (cfg : Config) (bx bx' : String → Bool) (now : String) :
    ((generate_badge_certifications_json cfg bx now).2
        = errSum bx (cfg.categories.getD []) (cfg.certifications.getD []))
    ∧ (cfg.certifications.getD []).Forall
        (fun c => certErrors bx (cfg.categories.getD []) c ≠ [] →
          build_cert_entry c ∉ allEntries (generate_badge_certifications_json cfg bx now).1)
    ∧ (cfg.certifications.getD []).Forall
        (fun c => certErrors bx (cfg.categories.getD []) c = [] →
          ∃ g, lookupA (generate_badge_certifications_json cfg bx now).1.categories (catKey c)
                = some g
            ∧ build_cert_entry c ∈ g.certifications)
    ∧ generate_badge_certifications_json cfg bx now
        = generate_badge_certifications_json cfg bx' now := by
  refine ⟨?_, ?_, ?_, generate_bx_indep cfg bx bx' now⟩
  · rw [generate_eq]
    by_cases h : (cfg.certifications.getD []).isEmpty
    · have h' : (cfg.certifications.getD []) = [] := List.isEmpty_iff.mp h
      simp [h, h', errSum]
    · simp [h]
  · rw [List.forall_iff_forall_mem]
    intro c hc hne hmem
    rcases List.mem_flatten.mp (show build_cert_entry c ∈
        ((generate_badge_certifications_json cfg bx now).1.categories.map
          (fun p => p.2.certifications)).flatten from hmem) with ⟨l, hl, hel⟩
    rcases List.mem_map.mp hl with ⟨p, hp, rfl⟩
    rcases (mem_out_categories cfg bx now p).mp hp with ⟨k, _, rfl⟩
    have hel' : build_cert_entry c ∈
        ((survivorsIn bx (cfg.categories.getD []) (cfg.certifications.getD []) k).map
          build_cert_entry) := by
      simpa [sortGroupEntries, groupFor, List.mem_mergeSort] using hel
    rcases List.mem_map.mp hel' with ⟨c', hc', hbb⟩
    have hpair := List.mem_filter.mp hc'
    have hval : isValidCert bx (cfg.categories.getD []) c' = true :=
      ((Bool.and_eq_true _ _).mp hpair.2).1
    have : certErrors bx (cfg.categories.getD []) c = [] := by
      rw [certErrors_build, ← hbb, ← certErrors_build]
      exact List.isEmpty_iff.mp hval
    exact hne this
  · rw [List.forall_iff_forall_mem]
    intro c hc hval
    set cm := cfg.categories.getD []
    set certs := cfg.certifications.getD []
    have hvalid : isValidCert bx cm c = true := by simp [isValidCert, hval]
    have hsurv : c ∈ survivors bx cm certs := List.mem_filter.mpr ⟨hc, hvalid⟩
    have hk : catKey c ∈ keysOf bx cm certs :=
      (mem_keysOf bx cm certs _).mpr (List.mem_map.mpr ⟨c, hsurv, rfl⟩)
    refine ⟨(sortGroupEntries (catKey c, groupFor bx cm certs (catKey c))).2, ?_, ?_⟩
    · exact lookupA_out_categories cfg bx now (catKey c) hk
    · have : build_cert_entry c ∈
          (survivorsIn bx cm certs (catKey c)).map build_cert_entry :=
        List.mem_map.mpr ⟨c, List.mem_filter.mpr ⟨hc, by simp [hvalid]⟩, rfl⟩
      simpa [sortGroupEntries, groupFor, List.mem_mergeSort] using this

/-- C7 (amended): every entry of the output is the enrichment of a
surviving input record: all required fields are stored, the badge path
is `assets/badges/` + the badge image filename of the record, the optional
fields issue date / expiry date / credential id / description are
stored exactly when present and non-empty in the record — but the
verification URL key is ALWAYS stored, defaulting to the empty string
when the record has none. -/
theorem C7_entry_fields_amended (cfg : Config) (bx : String → Bool) (now : String) :
    ((generate_badge_certifications_json cfg bx now).1.categories).Forall
      (fun p => p.2.certifications.Forall
        (fun e => ∃ c ∈ cfg.certifications.getD [],
          certErrors bx (cfg.categories.getD []) c = []
          ∧ e = build_cert_entry c
          ∧ e.title = c.title.getD ("") ∧ e.provider = c.provider.getD ("")
          ∧ e.badge_image = c.badge_image.getD ("")
          ∧ e.badge_path = "assets/badges/" ++ c.badge_image.getD ("")
          ∧ e.category = c.category.getD ("")
          ∧ e.fallback_svg = generate_fallback_svg (c.provider.getD ("")) (c.title.getD (""))
          ∧ e.issue_date = (if truthy c.issue_date then c.issue_date else none)
          ∧ e.expiry_date = (if truthy c.expiry_date then c.expiry_date else none)
          ∧ e.credential_id = (if truthy c.credential_id then c.credential_id else none)
          ∧ e.description = (if truthy c.description then c.description else none)
          ∧ e.verification_url = some (c.verification_url.getD ("")))) := by
  rw [List.forall_iff_forall_mem]
  intro p hp
  rcases (mem_out_categories cfg bx now p).mp hp with ⟨k, _, rfl⟩
  rw [List.forall_iff_forall_mem]
  intro e he
  have he' : e ∈ (survivorsIn bx (cfg.categories.getD []) (cfg.certifications.getD []) k).map
      build_cert_entry := by
    simpa [sortGroupEntries, groupFor, List.mem_mergeSort] using he
  rcases List.mem_map.mp he' with ⟨c, hc, rfl⟩
  have hpair := List.mem_filter.mp hc
  have hval : isValidCert bx (cfg.categories.getD []) c = true :=
    ((Bool.and_eq_true _ _).mp hpair.2).1
  exact ⟨c, hpair.1, List.isEmpty_iff.mp hval, rfl, rfl, rfl, rfl, rfl, rfl, rfl, rfl,
    rfl, rfl, rfl, rfl⟩

/-- A single-record configuration whose record has no verification
URL. -/
def cfgNoUrl : Config :=
  { certifications := some [certNoDate], categories := some cmCloud }

/-- C7 (counterexample): the input record has NO verification URL, yet
its output entry contains the `verification_url` key (with the empty
string as value) — refuting the claim that the entry contains each
optional field, the verification URL among them, only if that field is
present and non-empty in the input record. -/
theorem C7_counterexample :
    certNoDate.verification_url = none
    ∧ ((generate_badge_certifications_json cfgNoUrl (fun _ => true) "T").1.categories.map
        (fun p => p.2.certifications.map (fun e => e.verification_url)))
      = [[some ("")]] := by
  refine ⟨rfl, ?_⟩
  rw [generate_eq]
  simp only [cfgNoUrl, Option.getD_some, List.isEmpty_cons, Bool.false_eq_true, if_false]
  rw [show keysOf (fun _ => true) cmCloud [certNoDate] = ["cloud"] from by decide]
  simp only [List.map_singleton, List.mergeSort_singleton, sortGroupEntries]
  rw [show (groupFor (fun _ => true) cmCloud [certNoDate] "cloud").certifications
      = [build_cert_entry certNoDate] from by decide]
  simp only [List.mergeSort_singleton]
  rfl

/-- C8 (counterexample): a configuration with an empty certification
list: the run succeeds (exit 0) and writes the document, but the
written document has NO `last_updated` key — refuting the claim that
every output document produced by a successful run contains a
generation timestamp. -/
theorem C8_counterexample :
    main_run (some { certifications := some ([] : List Cert) }) (fun _ => true) "T"
      = (0, some { last_updated := none, total_count := 0, categories := [] }) := rfl

/-- C8 (amended): a successful run always writes a document carrying
the total valid-record count and the category mapping; the
`last_updated` timestamp is present exactly when the input holds at
least one certification record.  With zero certifications the run
still succeeds and writes total_count 0, empty categories and no
timestamp. -/
theorem C8_output_shape_amended (oc : Option Config) (bx : String → Bool) (now : String)
    (h : (main_run oc bx now).1 = 0) :
    ∃ cfg out, oc = some cfg
      ∧ (main_run oc bx now).2 = some out
      ∧ out.total_count
          = (survivors bx (cfg.categories.getD []) (cfg.certifications.getD [])).length
      ∧ out.last_updated = (if (cfg.certifications.getD []).isEmpty then none else some now)
      ∧ out.categories
          = ((((keysOf bx (cfg.categories.getD []) (cfg.certifications.getD [])).map
              (fun k => (k, groupFor bx (cfg.categories.getD []) (cfg.certifications.getD []) k))).mergeSort
                catLE).map sortGroupEntries)
      ∧ ((cfg.certifications.getD []).isEmpty →
          out = { last_updated := none, total_count := 0, categories := [] }) := by
  rcases oc with _ | cfg
  · cases h
  · simp only [main_run] at h ⊢
    rcases hf : configFalsy cfg with _ | _
    · simp only [hf, Bool.false_eq_true, if_false] at h ⊢
      rcases he : (generate_badge_certifications_json cfg bx now).2 with _ | n
      · simp only [he] at h ⊢
        simp only [Nat.lt_irrefl, if_neg, gt_iff_lt, if_false]
        refine ⟨cfg, (generate_badge_certifications_json cfg bx now).1, rfl, rfl, ?_, ?_, ?_, ?_⟩
        · rw [generate_eq]
          by_cases hn : (cfg.certifications.getD []).isEmpty
          · simp [hn, survivors, List.isEmpty_iff.mp hn]
          · simp [hn]
        · rw [generate_eq]
          by_cases hn : (cfg.certifications.getD []).isEmpty
          · simp [hn]
          · simp [hn]
        · rw [generate_eq]
          by_cases hn : (cfg.certifications.getD []).isEmpty
          · simp [hn, keysOf, survivors, List.isEmpty_iff.mp hn]
          · simp [hn]
        · rw [generate_eq]
          intro hn
          simp [hn]
      · rw [he] at h
        simp at h
    · rw [hf] at h
      simp at h

/-- Witness for C8 at the empty-certification-list configuration. -/
theorem C8_output_shape_witness :
    ∃ cfg out,
      (some ({ certifications := some ([] : List Cert) } : Config)) = some cfg
      ∧ (main_run (some ({ certifications := some ([] : List Cert) } : Config))
          (fun _ => true) "T").2 = some out
      ∧ out.total_count = (survivors (fun _ => true) (cfg.categories.getD [])
          (cfg.certifications.getD [])).length
      ∧ out.last_updated = (if (cfg.certifications.getD []).isEmpty then none else some ("T"))
      ∧ out.categories
          = ((((keysOf (fun _ => true) (cfg.categories.getD []) (cfg.certifications.getD [])).map
              (fun k => (k, groupFor (fun _ => true) (cfg.categories.getD [])
                (cfg.certifications.getD []) k))).mergeSort catLE).map sortGroupEntries)
      ∧ ((cfg.certifications.getD []).isEmpty →
          out = { last_updated := none, total_count := 0, categories := [] }) :=
  C8_output_shape_amended (some { certifications := some ([] : List Cert) })
    (fun _ => true) "T" (by decide)

/-! ### C10: stability of both sorts -/

theorem charListLE_refl (as : List Char) : charListLE as as = true := by
  induction as with
  | nil => rfl
  | cons a t ih => simp [charListLE, Nat.lt_irrefl, ih]

/-- A stable sort leaves the relative order of a tie class unchanged:
filtering the sorted list by a predicate that selects mutually tied
elements gives the same list as filtering the input. -/
theorem mergeSort_filter_of_tied {α : Type} (le : α → α → Bool)
    (trans : ∀ a b c : α, le a b → le b c → le a c)
    (total : ∀ a b : α, le a b || le b a)
    (l : List α) (p : α → Bool) (htied : ∀ a b, p a → p b → le a b) :
    (l.mergeSort le).filter p = l.filter p := by
  have hpw : (l.filter p).Pairwise (fun a b => le a b) := by
    refine List.pairwise_of_forall_mem_list ?_
    intro a ha b hb
    exact htied a b (List.mem_filter.mp ha).2 (List.mem_filter.mp hb).2
  have hsub : List.Sublist (l.filter p) (l.mergeSort le) :=
    List.sublist_mergeSort trans total hpw (List.filter_sublist l)
  have hsub2 : List.Sublist (l.filter p) ((l.mergeSort le).filter p) := by
    have h1 := hsub.filter p
    rwa [List.filter_eq_self.mpr (fun a ha => (List.mem_filter.mp ha).2)] at h1
  have hlen : ((l.mergeSort le).filter p).length = (l.filter p).length :=
    ((l.mergeSort_perm le).filter p).length_eq
  exact (hsub2.eq_of_length hlen.symm).symm

/-- Position of the first surviving record of category `k` in the
input sequence. -/
def firstSurvIdx (bx : String → Bool) (cm : List (String × CatMeta)) (certs : List Cert)
    (k : String) : Nat :=
  certs.findIdx (fun c => isValidCert bx cm c && (catKey c == k))

theorem firstSurvIdx_lt_length (bx : String → Bool) (cm : List (String × CatMeta))
    (certs : List Cert) (k : String) (hk : k ∈ keysOf bx cm certs) :
    firstSurvIdx bx cm certs k < certs.length := by
  rcases List.mem_map.mp ((mem_keysOf bx cm certs k).mp hk) with ⟨c, hc, rfl⟩
  have hcf := List.mem_filter.mp hc
  exact List.findIdx_lt_length_of_exists ⟨c, hcf.1, by simp [hcf.2]⟩

theorem firstSurvIdx_append (bx : String → Bool) (cm : List (String × CatMeta))
    (l : List Cert) (c : Cert) (k : String) (hk : k ∈ keysOf bx cm l) :
    firstSurvIdx bx cm (l ++ [c]) k = firstSurvIdx bx cm l k := by
  rw [firstSurvIdx, List.findIdx_append]
  rw [if_pos (show l.findIdx (fun c => isValidCert bx cm c && (catKey c == k)) < l.length from
    firstSurvIdx_lt_length bx cm l k hk)]
  rfl

/-- The category keys produced by the grouping loop are ordered by the
position of the first surviving record of each category. -/
theorem keysOf_pairwise_firstSurvIdx (bx : String → Bool) (cm : List (String × CatMeta))
    (certs : List Cert) :
    (keysOf bx cm certs).Pairwise
      (fun k1 k2 => firstSurvIdx bx cm certs k1 < firstSurvIdx bx cm certs k2) := by
  induction certs using List.reverseRecOn with
  | nil => simp [keysOf, survivors]
  | append_singleton l c ih =>
    rw [keysOf_append]
    rcases hv : isValidCert bx cm c with _ | _
    · simp only [Bool.false_eq_true, if_false]
      refine ih.imp_of_mem ?_
      intro a b ha hb hab
      rwa [firstSurvIdx_append bx cm l c a ha, firstSurvIdx_append bx cm l c b hb]
    · simp only [if_true]
      rw [insertKey]
      by_cases hk : catKey c ∈ keysOf bx cm l
      · rw [if_pos hk]
        refine ih.imp_of_mem ?_
        intro a b ha hb hab
        rwa [firstSurvIdx_append bx cm l c a ha, firstSurvIdx_append bx cm l c b hb]
      · rw [if_neg hk]
        rw [List.pairwise_append]
        refine ⟨ih.imp_of_mem ?_, List.pairwise_singleton _ _, ?_⟩
        · intro a b ha hb hab
          rwa [firstSurvIdx_append bx cm l c a ha, firstSurvIdx_append bx cm l c b hb]
        · intro a ha b hb
          rcases List.mem_singleton.mp hb with rfl
          rw [firstSurvIdx_append bx cm l c a ha]
          have hnotl : l.findIdx (fun c' => isValidCert bx cm c' && (catKey c' == catKey c))
              = l.length := by
            rw [List.findIdx_eq_length]
            intro x hx
            by_contra hpx
            simp only [Bool.not_eq_false] at hpx
            have hxv := (Bool.and_eq_true _ _).mp hpx
            exact hk ((mem_keysOf bx cm l (catKey c)).mpr
              (List.mem_map.mpr ⟨x, List.mem_filter.mpr ⟨hx, hxv.1⟩, by simpa using hxv.2⟩))
          have happ : firstSurvIdx bx cm (l ++ [c]) (catKey c) = l.length := by
            rw [firstSurvIdx, List.findIdx_append, if_neg]
            · simp [List.findIdx_cons, hv]
            · rw [hnotl]
              exact Nat.lt_irrefl _
          rw [happ]
          exact firstSurvIdx_lt_length bx cm l a ha

/-- C10: both output orderings are stable with respect to the input
order.  (1) Among categories sharing a `sort_order` value `s`, the
output preserves the order of the first surviving record of each category
in the input sequence.  (2) Within each category, the entries sharing
a sort-key value `d` appear exactly as in the input sequence of
surviving records of that category. -/
theorem C10_stability (cfg : Config) (bx : String → Bool) (now : String) (s : Int) (d : String) :
    ((((generate_badge_certifications_json cfg bx now).1.categories).filter
        (fun p => p.2.sort_order == s)).map Prod.fst).Pairwise
      (fun k1 k2 =>
        firstSurvIdx bx (cfg.categories.getD []) (cfg.certifications.getD []) k1
          < firstSurvIdx bx (cfg.categories.getD []) (cfg.certifications.getD []) k2)
    ∧ ((generate_badge_certifications_json cfg bx now).1.categories).Forall
      (fun p => p.2.certifications.filter (fun e => entryKey e == d)
        = ((survivorsIn bx (cfg.categories.getD []) (cfg.certifications.getD []) p.1).map
            build_cert_entry).filter (fun e => entryKey e == d)) := by
  constructor
  · rw [generate_eq]
    by_cases h : (cfg.certifications.getD []).isEmpty
    · simp [h]
    · simp only [h, Bool.false_eq_true, if_false]
      have hTied : ∀ a b : String × CatGroup,
          (a.2.sort_order == s) → (b.2.sort_order == s) → catLE a b := by
        intro a b ha hb
        have ha' : a.2.sort_order = s := by simpa using ha
        have hb' : b.2.sort_order = s := by simpa using hb
        simp [catLE, ha', hb']
      rw [List.filter_map]
      rw [show ((fun p : String × CatGroup => p.2.sort_order == s) ∘ sortGroupEntries)
          = (fun p : String × CatGroup => p.2.sort_order == s) from funext (fun p => rfl)]
      rw [mergeSort_filter_of_tied catLE catLE_trans catLE_total _ _ hTied]
      rw [List.map_map]
      rw [show (Prod.fst ∘ sortGroupEntries) = (Prod.fst : String × CatGroup → String) from
        funext (fun p => rfl)]
      rw [List.filter_map, List.map_map]
      rw [show ((Prod.fst : String × CatGroup → String) ∘
          (fun k => (k, groupFor bx (cfg.categories.getD []) (cfg.certifications.getD []) k)))
          = id from funext (fun k => rfl)]
      rw [List.map_id]
      exact (keysOf_pairwise_firstSurvIdx bx _ _).sublist (List.filter_sublist _)
  · rw [List.forall_iff_forall_mem]
    intro p hp
    rcases (mem_out_categories cfg bx now p).mp hp with ⟨k, _, rfl⟩
    have hTied : ∀ a b : CertEntry, (entryKey a == d) → (entryKey b == d) → entryGE a b := by
      intro a b ha hb
      have ha' : entryKey a = d := by simpa using ha
      have hb' : entryKey b = d := by simpa using hb
      simp [entryGE, pyStrLE, ha', hb', charListLE_refl]
    exact mergeSort_filter_of_tied entryGE entryGE_trans entryGE_total _ _ hTied

end BadgeCerts
